import Mathlib

/-!
Shallow embedding of the dev.to TOC generator (`src/toc.ts`) of the
`devto-cli` repository.

Strings are modelled as `List Char` (one JS UTF-16-ish string = one list of
Unicode code points; all string literals in play are BMP so the models
coincide).  Each JS regex replace of the source is translated into an
explicit recursive function; functions whose recursion is not structural
use a fuel argument initialised with the input length, which dominates the
number of steps.  Line splitting / joining (`content.split('\n')`,
`join('\n')`) are `splitLines` / `joinLines`.
-/

namespace Devto

/-- Characters matched by the JS `\s` class and removed by `String.trim`. -/
def jsWhitespace (c : Char) : Bool :=
  (c.toNat == 0x09) || (c.toNat == 0x0a) || (c.toNat == 0x0b) ||
  (c.toNat == 0x0c) || (c.toNat == 0x0d) || (c.toNat == 0x20) ||
  (c.toNat == 0xa0) || (c.toNat == 0x1680) ||
  (decide (0x2000 ≤ c.toNat) && decide (c.toNat ≤ 0x200a)) ||
  (c.toNat == 0x2028) || (c.toNat == 0x2029) || (c.toNat == 0x202f) ||
  (c.toNat == 0x205f) || (c.toNat == 0x3000) || (c.toNat == 0xfeff)

/-- JS `String.prototype.trim`. -/
def trimC (s : List Char) : List Char :=
  ((s.dropWhile jsWhitespace).reverse.dropWhile jsWhitespace).reverse

/-- The backtick character (written via its code point). -/
def btChar : Char := Char.ofNat 0x60

/-- JS `String.prototype.startsWith` on char lists: `startsWithC pat s`. -/
def startsWithC : List Char → List Char → Bool
  | [], _ => true
  | _ :: _, [] => false
  | p :: ps, c :: cs => (p == c) && startsWithC ps cs

/-- JS `String.prototype.includes` (substring occurrence): `containsC pat s`. -/
def containsC (pat : List Char) : List Char → Bool
  | [] => startsWithC pat []
  | c :: cs => startsWithC pat (c :: cs) || containsC pat cs

/-- Split a string at the first occurrence of `c`; `none` when `c` is absent.
Mirrors what a regex `[^c]*c` consumes. -/
def splitAtChar (c : Char) (s : List Char) : Option (List Char × List Char) :=
  let pre := s.takeWhile (fun x => !(x == c))
  if pre.length < s.length then some (pre, s.drop (pre.length + 1)) else none

/-- `escapeHtmlEntities` of the source, acting on one character:
`&` is `amp`, `<` is `lt`, `>` is `gt` (literal word substitution). -/
def escChar (c : Char) : List Char :=
  if c == '&' then ("amp").data
  else if c == '<' then ("lt").data
  else if c == '>' then ("gt").data
  else [c]

/-- `escapeHtmlEntities` of the source (the three sequential global replaces
are equivalent to one character-wise pass, as no replacement reintroduces
`&`, `<` or `>`). -/
def escapeHtmlEntities (s : List Char) : List Char :=
  (s.map escChar).flatten

/-- Step 2 of `generateDevToAnchor`: global replace of
`INLINE_CODE_REGEX = /`([^`]*)`/g`, escaping HTML entities inside each code
span.  Fueled; the fuel is initialised with the string length. -/
def transformInlineCodeF : Nat → List Char → List Char
  | 0, s => s
  | _ + 1, [] => []
  | fuel + 1, c :: rest =>
    if c == btChar then
      match splitAtChar btChar rest with
      | some (code, rest2) =>
        btChar :: (escapeHtmlEntities code ++ btChar :: transformInlineCodeF fuel rest2)
      | none => c :: rest
    else c :: transformInlineCodeF fuel rest

/-- Wrapper supplying the fuel. -/
def transformInlineCode (s : List Char) : List Char :=
  transformInlineCodeF s.length s

/-- Step 3: global replace of `HTML_TAGS_REGEX = /<[^>]*>/g` by the empty
string. -/
def stripHtmlTagsF : Nat → List Char → List Char
  | 0, s => s
  | _ + 1, [] => []
  | fuel + 1, c :: rest =>
    if c == '<' then
      match splitAtChar '>' rest with
      | some (_, rest2) => stripHtmlTagsF fuel rest2
      | none => c :: stripHtmlTagsF fuel rest
    else c :: stripHtmlTagsF fuel rest

/-- Wrapper supplying the fuel. -/
def stripHtmlTags (s : List Char) : List Char :=
  stripHtmlTagsF s.length s

/-- Step 4: global replace of
`MARKDOWN_LINK_REGEX = /\[([^\]]*)\]\([^)]*\)/g` by the captured link text.
On a failed match at a `[` the scan resumes one character further, as the
regex engine does. -/
def stripMarkdownLinksF : Nat → List Char → List Char
  | 0, s => s
  | _ + 1, [] => []
  | fuel + 1, c :: rest =>
    if c == '[' then
      match splitAtChar ']' rest with
      | some (txt, rest1) =>
        match rest1 with
        | c2 :: rest2 =>
          if c2 == '(' then
            match splitAtChar ')' rest2 with
            | some (_, rest3) => txt ++ stripMarkdownLinksF fuel rest3
            | none => c :: stripMarkdownLinksF fuel rest
          else c :: stripMarkdownLinksF fuel rest
        | [] => c :: stripMarkdownLinksF fuel rest
      | none => c :: stripMarkdownLinksF fuel rest
    else c :: stripMarkdownLinksF fuel rest

/-- Wrapper supplying the fuel. -/
def stripMarkdownLinks (s : List Char) : List Char :=
  stripMarkdownLinksF s.length s

/-- `EMOJI_REGEX` of the source: the three hard-coded code point ranges. -/
def isEmojiChar (c : Char) : Bool :=
  (decide (0x1F300 ≤ c.toNat) && decide (c.toNat ≤ 0x1F9FF)) ||
  (decide (0x2600 ≤ c.toNat) && decide (c.toNat ≤ 0x26FF)) ||
  (decide (0x2700 ≤ c.toNat) && decide (c.toNat ≤ 0x27BF))

/-- The characters of `PUNCTUATION_REGEX` (Ruby `[[:punct:]]` equivalent used
by dev.to, plus the prime/quote look-alikes and the hyphen). -/
def punctChars : List Char :=
  ("!\"#$%&\x27()*+,./:;<=>?@[\\]^_\x60\x7b|\x7d~-").data ++
    [Char.ofNat 0x055A, Char.ofNat 0xA78C, Char.ofNat 0x2032,
     Char.ofNat 0x2033, Char.ofNat 0x2034, Char.ofNat 0x3003]

/-- Membership in `PUNCTUATION_REGEX`. -/
def isPunctChar (c : Char) : Bool := punctChars.contains c

/-- Step 8 of `generateDevToAnchor`: replace each backtick, counting the
backticks seen so far (the source counts the backticks in
`str.slice(0, offset)`, which for the k-th backtick is exactly k). -/
def replaceBackticksAux (k : Nat) : List Char → List Char
  | [] => []
  | c :: rest =>
    if c == btChar then
      (if k % 2 == 0 then (" raw ").data else (" endraw ").data) ++
        replaceBackticksAux (k + 1) rest
    else c :: replaceBackticksAux k rest

/-- Step 10: `SPACES_REGEX = /\s+/g` replaced by a single dash.  The flag
records whether the previous character was whitespace (run continuation). -/
def spacesToDashAux (prevWs : Bool) : List Char → List Char
  | [] => []
  | c :: rest =>
    if jsWhitespace c then
      (if prevWs then spacesToDashAux true rest else '-' :: spacesToDashAux true rest)
    else c :: spacesToDashAux false rest

/-- `spacesToDash` of the source. -/
def spacesToDash (s : List Char) : List Char := spacesToDashAux false s

/-- Step 11: every run of dashes replaced by a single dash. -/
def concatDashesAux (prevDash : Bool) : List Char → List Char
  | [] => []
  | c :: rest =>
    if c == '-' then
      (if prevDash then concatDashesAux true rest else '-' :: concatDashesAux true rest)
    else c :: concatDashesAux false rest

/-- `concatDashes` of the source. -/
def concatDashes (s : List Char) : List Char := concatDashesAux false s

/-- Step 12: `/^-+|-+$/g` replaced by the empty string: strip the leading
and the trailing run of dashes. -/
def dropEdgeDashes (s : List Char) : List Char :=
  ((s.dropWhile (fun c => c == '-')).reverse.dropWhile (fun c => c == '-')).reverse

/-- `generateDevToAnchor` of the source: the 12-step dev.to slugifier.
`Char.toLower` models JS `toLowerCase` (ASCII range; all inputs in play are
ASCII-lowered identically). -/
def generateDevToAnchor (title : List Char) : List Char :=
  let s1 := title.map Char.toLower
  let s2 := transformInlineCode s1
  let s3 := stripHtmlTags s2
  let s4 := stripMarkdownLinks s3
  let s5 := escapeHtmlEntities s4
  let s6 := s5.filter (fun c => !(isEmojiChar c))
  let s7 := trimC s6
  let s8 := replaceBackticksAux 0 s7
  let s9 := s8.filter (fun c => !(isPunctChar c))
  let s10 := spacesToDash s9
  let s11 := concatDashes s10
  dropEdgeDashes s11

/-- A TOC entry (`TocEntry` of the source). -/
structure TocEntry where
  indent : Nat
  title : List Char
  link : List Char
deriving DecidableEq, Repr

/-- The recognised options (`Required<TocOptions>` of the source). -/
structure TocOptions where
  indentChars : List Char
  indentSpaces : Nat
  maxLevel : Nat
  trimTocIndent : Bool
  concatSpaces : Bool
deriving DecidableEq, Repr

/-- `defaultOptions` of the source. -/
def defaultOptions : TocOptions :=
  { indentChars := ("-*+").data
    indentSpaces := 3
    maxLevel := 2
    trimTocIndent := true
    concatSpaces := true }

/-- `parseHeader` of the source: match `HEADER_REGEX = /^(#{1,6}) +(.+)$/`
and return level and trimmed title.  When the line is hashes followed only
by `k ≥ 2` spaces, the regex backtracks and captures a single space, whose
trim is empty; with `k = 1` the `(.+)` group has nothing to match. -/
def parseHeader (l : List Char) : Option (Nat × List Char) :=
  let n := (l.takeWhile (fun c => c == '#')).length
  let rest := l.drop n
  let k := (rest.takeWhile (fun c => c == ' ')).length
  let after := rest.drop k
  if 1 ≤ n ∧ n ≤ 6 ∧ 1 ≤ k then
    (if after.isEmpty then (if 2 ≤ k then some (n, trimC [' ']) else none)
     else some (n, trimC after))
  else none

/-- The leading list/numbering prefix strip of `isCodeBlockMarker`:
`line.replace(/^\s*(?:\d+\.)?[*+-]?\s*/, '')`. -/
def stripListPrefixC (l : List Char) : List Char :=
  let l1 := l.dropWhile jsWhitespace
  let d := l1.takeWhile Char.isDigit
  let l2 :=
    if 0 < d.length && ((l1.drop d.length).head? == some '.') then
      l1.drop (d.length + 1)
    else l1
  let l3 :=
    match l2 with
    | c :: rest => if c == '*' || c == '+' || c == '-' then rest else l2
    | [] => l2
  l3.dropWhile jsWhitespace

/-- `isCodeBlockMarker` of the source: after stripping the list prefix, a
run of three or more backticks or tildes; returns the full run. -/
def isCodeBlockMarker (l : List Char) : Option (List Char) :=
  let t := stripListPrefixC l
  match t with
  | c :: _ =>
    if (c == btChar || c == '~') && startsWithC [c, c, c] t then
      some (t.takeWhile (fun x => x == c))
    else none
  | [] => none

/-- The scanner state of `extractTocEntries`. -/
structure ScanState where
  inCodeBlock : Bool
  codeBlockMarker : List Char
  inHtmlComment : Bool
deriving DecidableEq, Repr

/-- The initial scanner state. -/
def initScanState : ScanState :=
  { inCodeBlock := false, codeBlockMarker := [], inHtmlComment := false }

/-- `HTML_COMMENT_START_REGEX` pattern. -/
def commentStartPat : List Char := ("<!--").data

/-- `HTML_COMMENT_END_REGEX` pattern. -/
def commentEndPat : List Char := ("-->").data

/-- The code-block / heading part of one loop iteration of
`extractTocEntries` (reached when the HTML-comment block did not
`continue`). -/
def tocStepCode (opts : TocOptions) (st : ScanState) (line : List Char) :
    ScanState × Option TocEntry :=
  match isCodeBlockMarker line with
  | some m =>
    if st.inCodeBlock then
      (if startsWithC st.codeBlockMarker (trimC line) then
        ({ st with inCodeBlock := false, codeBlockMarker := [] }, none)
       else (st, none))
    else ({ st with inCodeBlock := true, codeBlockMarker := m }, none)
  | none =>
    if st.inCodeBlock || st.inHtmlComment then (st, none)
    else
      match parseHeader line with
      | some (lvl, title) =>
        if lvl ≤ opts.maxLevel then
          (st, some { indent := lvl - 1
                      title := stripMarkdownLinks title
                      link := generateDevToAnchor title })
        else (st, none)
      | none => (st, none)

/-- One loop iteration of `extractTocEntries`: the HTML-comment handling is
checked first, guarded by `!inCodeBlock`, exactly as in the source. -/
def tocStep (opts : TocOptions) (st : ScanState) (line : List Char) :
    ScanState × Option TocEntry :=
  if st.inCodeBlock then tocStepCode opts st line
  else if containsC commentStartPat line && !(containsC commentEndPat line) then
    ({ st with inHtmlComment := true }, none)
  else if st.inHtmlComment then
    ((if containsC commentEndPat line then { st with inHtmlComment := false } else st),
      none)
  else tocStepCode opts st line

/-- The line loop of `extractTocEntries`. -/
def scanLines (opts : TocOptions) : ScanState → List (List Char) → List TocEntry
  | _, [] => []
  | st, l :: ls =>
    match tocStep opts st l with
    | (st2, some e) => e :: scanLines opts st2 ls
    | (st2, none) => scanLines opts st2 ls

/-- JS `content.split('\n')`. -/
def splitLines : List Char → List (List Char)
  | [] => [[]]
  | c :: rest =>
    match splitLines rest with
    | [] => [[]]
    | l :: ls => if c == '\n' then [] :: l :: ls else (c :: l) :: ls

/-- JS `lines.join('\n')`. -/
def joinLines : List (List Char) → List Char
  | [] => []
  | [l] => l
  | l :: l2 :: ls => l ++ '\n' :: joinLines (l2 :: ls)

/-- `extractTocEntries` of the source. -/
def extractTocEntries (content : List Char) (opts : TocOptions) : List TocEntry :=
  scanLines opts initScanState (splitLines content)

/-- `generateTocMarkdown` of the source.  `Math.min(...xs)` is the fold of
`min` over the mapped indents; a missing bullet index (empty charset) would
render JS `undefined`. -/
def generateTocMarkdown (entries : List TocEntry) (opts : TocOptions) : List Char :=
  match entries with
  | [] => []
  | e0 :: rest =>
    let minIndent :=
      if opts.trimTocIndent then rest.foldl (fun a e => min a e.indent) e0.indent
      else 0
    joinLines ((e0 :: rest).map (fun e =>
      let adj := e.indent - minIndent
      let spaces := List.replicate (adj * opts.indentSpaces) ' '
      let bullet :=
        match opts.indentChars.get? (adj % opts.indentChars.length) with
        | some b => [b]
        | none => ("undefined").data
      spaces ++ bullet ++ (" [").data ++ e.title ++ ("](#").data ++ e.link ++ (")").data))

/-- `TOC_START` marker of the source. -/
def TOC_START : List Char := ("<!-- TOC start -->").data

/-- `TOC_END` marker of the source. -/
def TOC_END : List Char := ("<!-- TOC end -->").data

/-- `TOC_PLACEHOLDER` of the source. -/
def TOC_PLACEHOLDER : List Char := ("[TOC]").data

/-- The liquid-tag substring looked up by `hasToc`. -/
def liquidTocPat : List Char := ("\x7b%- # TOC start").data

/-- The liquid-comment substring looked up by `hasToc`. -/
def commentTocPat : List Char := ("\x7b% comment %\x7dTOC start").data

/-- The HTML-comment substring looked up by `hasToc`. -/
def htmlTocPat : List Char := ("<!-- TOC start").data

/-- `hasToc` of the source: raw substring containment of one of the four
marker strings. -/
def hasToc (content : List Char) : Bool :=
  containsC TOC_PLACEHOLDER content || containsC liquidTocPat content ||
    containsC commentTocPat content || containsC htmlTocPat content

/-- `needsTocUpdate` of the source. -/
def needsTocUpdate (content : List Char) : Bool := hasToc content

/-- The substring `TOC start` used by `findTocPosition`. -/
def tocStartWord : List Char := ("TOC start").data

/-- The substring `TOC end` used by `findTocPosition`. -/
def tocEndWord : List Char := ("TOC end").data

/-- Prefix `{%-` of a start-marker line. -/
def liquidStartPat : List Char := ("\x7b%-").data

/-- Prefix `{% comment %}` of a start-marker line. -/
def liquidCommentPat : List Char := ("\x7b% comment %\x7d").data

/-- The start-marker test of `findTocPosition` on a trimmed line. -/
def isStartMarkerLine (t : List Char) : Bool :=
  containsC tocStartWord t &&
    (startsWithC liquidStartPat t || startsWithC liquidCommentPat t ||
      startsWithC commentStartPat t)

/-- The line loop of `findTocPosition`: `i` is the current line index, `s0`
the recorded start line (or `none`). -/
def findTocAux : Nat → Option Nat → List (List Char) → Option (Nat × Nat)
  | _, _, [] => none
  | i, s0, l :: ls =>
    let t := trimC l
    let s1 := if isStartMarkerLine t then some i else s0
    if s1.isSome && containsC tocEndWord t then some (s1.getD 0, i)
    else if t == TOC_PLACEHOLDER then some (i, i)
    else findTocAux (i + 1) s1 ls

/-- `findTocPosition` of the source. -/
def findTocPosition (content : List Char) : Option (Nat × Nat) :=
  findTocAux 0 none (splitLines content)

/-- `removeExistingToc` of the source. -/
def removeExistingToc (content : List Char) : List Char × Option (Nat × Nat) :=
  match findTocPosition content with
  | none => (content, none)
  | some (s, e) =>
    let lines := splitLines content
    (joinLines (lines.take s ++ lines.drop (e + 1)), some (s, e))

/-- The marker-wrapped TOC block
`[TOC_START, '', tocMarkdown, '', TOC_END].join('\n')`. -/
def wrapToc (toc : List Char) : List Char :=
  joinLines [TOC_START, [], toc, [], TOC_END]

/-- `updateToc` of the source. -/
def updateToc (content : List Char) (opts : TocOptions) : List Char :=
  let r := removeExistingToc content
  let cleanContent := r.1
  let tocPosition := r.2
  let entries := extractTocEntries cleanContent opts
  if entries.isEmpty then content
  else
    let tocMarkdown := generateTocMarkdown entries opts
    let wrappedToc := wrapToc tocMarkdown
    let lines := splitLines cleanContent
    match tocPosition with
    | some (s, _) => joinLines (lines.take s ++ wrappedToc :: lines.drop s)
    | none =>
      '\n' :: (wrappedToc ++ '\n' :: '\n' :: cleanContent.dropWhile (fun c => c == '\n'))

/-- The TOC-stripped content computed inside `updateToc` (first component of
`removeExistingToc`). -/
def cleanOf (d : List Char) : List Char := (removeExistingToc d).1

/-- The entries `updateToc` extracts (default options). -/
def entriesOf (d : List Char) : List TocEntry :=
  extractTocEntries (cleanOf d) defaultOptions

/-- The TOC markdown `updateToc` regenerates (default options). -/
def tocOf (d : List Char) : List Char := generateTocMarkdown (entriesOf d) defaultOptions

/-- The lines of the regenerated TOC markdown. -/
def tocLinesOf (d : List Char) : List (List Char) := splitLines (tocOf d)

/-- The lines of the marker-wrapped TOC block `updateToc` inserts. -/
def wrapLinesOf (d : List Char) : List (List Char) :=
  TOC_START :: [] :: (tocLinesOf d ++ [[], TOC_END])

/-- The predicate of claim C6, modelled from the spec interface section: a
line that after trimming is exactly `[TOC]`, or a line that at line-trim
level begins with one of the three start prefixes and contains `TOC start`.
Spec-side definition, used only to compare against `needsTocUpdate`. -/
def claimTocLineMarker (d : List Char) : Bool :=
  (splitLines d).any (fun l =>
    (trimC l == TOC_PLACEHOLDER) ||
      (containsC tocStartWord l && isStartMarkerLine (trimC l)))

end Devto

namespace Devto

/-! Basic correctness of the string primitives. -/

theorem startsWithC_iff_append (p s : List Char) :
    startsWithC p s = true ↔ ∃ t, s = p ++ t := by
  induction p generalizing s with
  | nil =>
    simp [startsWithC]
  | cons a ps ih =>
    cases s with
    | nil =>
      simp [startsWithC]
    | cons c cs =>
      simp only [startsWithC, Bool.and_eq_true, beq_iff_eq, ih, List.cons_append,
        List.cons.injEq]
      constructor
      · rintro ⟨rfl, t, rfl⟩
        exact ⟨t, rfl, rfl⟩
      · rintro ⟨t, rfl, rfl⟩
        exact ⟨rfl, t, rfl⟩

theorem containsC_iff_append (p s : List Char) :
    containsC p s = true ↔ ∃ u v, s = u ++ p ++ v := by
  induction s with
  | nil =>
    cases p with
    | nil => simp [containsC, startsWithC]
    | cons a ps =>
      simp [containsC, startsWithC]
  | cons c cs ih =>
    simp only [containsC, Bool.or_eq_true, startsWithC_iff_append, ih]
    constructor
    · rintro (⟨t, ht⟩ | ⟨u, v, hv⟩)
      · exact ⟨[], t, by simpa using ht⟩
      · exact ⟨c :: u, v, by simp [hv]⟩
    · rintro ⟨u, v, h⟩
      cases u with
      | nil =>
        exact Or.inl ⟨v, by simpa using h⟩
      | cons a u' =>
        rw [List.cons_append, List.cons_append] at h
        injection h with h1 h2
        exact Or.inr ⟨u', v, h2⟩

/-! Round-trip properties of `splitLines` / `joinLines`. -/

theorem splitLines_ne_nil (s : List Char) : splitLines s ≠ [] := by
  cases s with
  | nil => simp [splitLines]
  | cons c rest =>
    simp only [splitLines]
    cases h : splitLines rest with
    | nil => simp
    | cons l ls =>
      dsimp only
      intro hfalse
      by_cases hc : (c == '\n') = true
      · rw [if_pos hc] at hfalse; cases hfalse
      · rw [if_neg hc] at hfalse; cases hfalse

theorem splitLines_cons_eq (c : Char) (rest : List Char) :
    splitLines (c :: rest) =
      if c == '\n' then [] :: splitLines rest
      else (c :: (splitLines rest).headI) :: (splitLines rest).tail := by
  simp only [splitLines]
  cases h : splitLines rest with
  | nil => exact absurd h (splitLines_ne_nil rest)
  | cons l ls =>
    dsimp only
    by_cases hc : (c == '\n') = true
    · rw [if_pos hc, if_pos hc]
    · rw [if_neg hc, if_neg hc]
      simp

theorem mem_splitLines_no_newline (s : List Char) : ∀ l ∈ splitLines s, '\n' ∉ l := by
  induction s with
  | nil =>
    intro l hl
    simp only [splitLines, List.mem_singleton] at hl
    subst hl; simp
  | cons c rest ih =>
    intro l hl
    rw [splitLines_cons_eq] at hl
    cases h : splitLines rest with
    | nil => exact absurd h (splitLines_ne_nil rest)
    | cons l0 ls0 =>
      rw [h] at hl
      by_cases hc : (c == '\n') = true
      · rw [if_pos hc] at hl
        rcases List.mem_cons.1 hl with rfl | hl2
        · simp
        · exact ih l (h ▸ hl2)
      · rw [if_neg hc] at hl
        dsimp only [List.headI, List.tail] at hl
        rcases List.mem_cons.1 hl with rfl | hl2
        · intro hmem
          rcases List.mem_cons.1 hmem with heq | hmem2
          · exact hc (by rw [heq]; simp)
          · exact ih l0 (h ▸ List.mem_cons_self l0 ls0) hmem2
        · exact ih l (h ▸ List.mem_cons_of_mem l0 hl2)

theorem splitLines_eq_single (l : List Char) (h : '\n' ∉ l) : splitLines l = [l] := by
  induction l with
  | nil => rfl
  | cons c rest ih =>
    have hc : ¬ (c == '\n') = true := by
      simp only [beq_iff_eq]
      rintro rfl
      exact h (List.mem_cons_self _ _)
    have hrest : '\n' ∉ rest := fun hm => h (List.mem_cons_of_mem _ hm)
    rw [splitLines_cons_eq, if_neg hc, ih hrest]
    rfl

theorem splitLines_append_newline (l t : List Char) (h : '\n' ∉ l) :
    splitLines (l ++ '\n' :: t) = l :: splitLines t := by
  induction l with
  | nil =>
    rw [List.nil_append, splitLines_cons_eq, if_pos (by simp)]
  | cons c rest ih =>
    have hc : ¬ (c == '\n') = true := by
      simp only [beq_iff_eq]
      rintro rfl
      exact h (List.mem_cons_self _ _)
    have hrest : '\n' ∉ rest := fun hm => h (List.mem_cons_of_mem _ hm)
    rw [List.cons_append, splitLines_cons_eq, if_neg hc, ih hrest]
    rfl

theorem splitLines_joinLines (ls : List (List Char)) (h0 : ls ≠ [])
    (h : ∀ l ∈ ls, '\n' ∉ l) : splitLines (joinLines ls) = ls := by
  induction ls with
  | nil => cases h0 rfl
  | cons l rest ih =>
    cases rest with
    | nil => exact splitLines_eq_single l (h l (List.mem_cons_self _ _))
    | cons l2 rest2 =>
      rw [joinLines, splitLines_append_newline _ _ (h l (List.mem_cons_self _ _)),
        ih (by simp) (fun x hx => h x (List.mem_cons_of_mem _ hx))]

theorem joinLines_splitLines (s : List Char) : joinLines (splitLines s) = s := by
  induction s with
  | nil => rfl
  | cons c rest ih =>
    rw [splitLines_cons_eq]
    cases h : splitLines rest with
    | nil => exact absurd h (splitLines_ne_nil rest)
    | cons l ls =>
      rw [h] at ih
      dsimp only [List.headI, List.tail]
      by_cases hc : (c == '\n') = true
      · rw [if_pos hc]
        have hj : joinLines ([] :: l :: ls) = '\n' :: joinLines (l :: ls) := rfl
        rw [hj, ih]
        have : c = '\n' := by simpa using hc
        rw [this]
      · rw [if_neg hc]
        cases ls with
        | nil =>
          have hj : joinLines [c :: l] = c :: joinLines [l] := rfl
          rw [hj, ih]
        | cons l2 ls2 =>
          have hj : joinLines ((c :: l) :: l2 :: ls2) =
              c :: (l ++ '\n' :: joinLines (l2 :: ls2)) := rfl
          rw [hj]
          have hj2 : joinLines (l :: l2 :: ls2) = l ++ '\n' :: joinLines (l2 :: ls2) := rfl
          rw [hj2] at ih
          rw [ih]

theorem joinLines_append (ls1 ls2 : List (List Char)) (h1 : ls1 ≠ []) (h2 : ls2 ≠ []) :
    joinLines (ls1 ++ ls2) = joinLines ls1 ++ '\n' :: joinLines ls2 := by
  induction ls1 with
  | nil => cases h1 rfl
  | cons l rest ih =>
    cases rest with
    | nil =>
      cases ls2 with
      | nil => cases h2 rfl
      | cons a as => rfl
    | cons r rs =>
      have hj : (l :: r :: rs) ++ ls2 = l :: ((r :: rs) ++ ls2) := rfl
      rw [hj]
      have hne : (r :: rs) ++ ls2 ≠ [] := by simp
      have hj2 : joinLines (l :: ((r :: rs) ++ ls2)) =
          l ++ '\n' :: joinLines ((r :: rs) ++ ls2) := by
        cases ls2 with
        | nil => cases h2 rfl
        | cons b bs => rfl
      rw [hj2, ih (by simp)]
      simp [joinLines, List.append_assoc]

theorem joinLines_cons_flatten (ws ys : List (List Char)) (hw : ws ≠ []) :
    joinLines (joinLines ws :: ys) = joinLines (ws ++ ys) := by
  cases ys with
  | nil => simp [joinLines]
  | cons y ys' =>
    rw [joinLines_append ws (y :: ys') hw (by simp)]
    rfl

theorem joinLines_flatten (xs ws ys : List (List Char)) (hw : ws ≠ []) :
    joinLines (xs ++ joinLines ws :: ys) = joinLines (xs ++ (ws ++ ys)) := by
  cases xs with
  | nil => simpa using joinLines_cons_flatten ws ys hw
  | cons x xs' =>
    have hwys : ws ++ ys ≠ [] := by
      cases ws with
      | nil => cases hw rfl
      | cons a as => simp
    rw [joinLines_append (x :: xs') (joinLines ws :: ys) (by simp) (by simp),
      joinLines_append (x :: xs') (ws ++ ys) (by simp) hwys,
      joinLines_cons_flatten ws ys hw]

/-! Lemmas about the marker scan `findTocAux`. -/

theorem findTocAux_inert_append (ls : List (List Char)) :
    ∀ (i : Nat) (s0 : Option Nat) (rest : List (List Char)),
      (∀ l ∈ ls, containsC tocEndWord (trimC l) = false ∧
        (trimC l == TOC_PLACEHOLDER) = false) →
      ∃ s1, findTocAux i s0 (ls ++ rest) = findTocAux (i + ls.length) s1 rest := by
  induction ls with
  | nil => exact fun i s0 rest _ => ⟨s0, by simp⟩
  | cons l ls ih =>
    intro i s0 rest hall
    obtain ⟨hend, hph⟩ := hall l (List.mem_cons_self _ _)
    have hrest := fun x hx => hall x (List.mem_cons_of_mem _ hx)
    rw [List.cons_append]
    simp only [findTocAux, hend, hph, Bool.and_false, if_false, Bool.false_eq_true]
    obtain ⟨s2, h2⟩ := ih (i + 1) (if isStartMarkerLine (trimC l) then some i else s0) rest hrest
    refine ⟨s2, ?_⟩
    rw [h2]
    have harith : i + 1 + ls.length = i + (l :: ls).length := by
      simp [List.length_cons]; omega
    rw [harith]

theorem findTocAux_fixed_skip (ls : List (List Char)) :
    ∀ (i p : Nat) (rest : List (List Char)),
      (∀ l ∈ ls, isStartMarkerLine (trimC l) = false ∧
        containsC tocEndWord (trimC l) = false ∧
        (trimC l == TOC_PLACEHOLDER) = false) →
      findTocAux i (some p) (ls ++ rest) = findTocAux (i + ls.length) (some p) rest := by
  induction ls with
  | nil => intro i p rest _; simp
  | cons l ls ih =>
    intro i p rest hall
    obtain ⟨hsm, hend, hph⟩ := hall l (List.mem_cons_self _ _)
    have hrest := fun x hx => hall x (List.mem_cons_of_mem _ hx)
    rw [List.cons_append]
    simp only [findTocAux, hsm, hend, hph, if_false, Bool.and_false, Bool.false_eq_true]
    rw [ih (i + 1) p rest hrest]
    have harith : i + 1 + ls.length = i + (l :: ls).length := by
      simp [List.length_cons]; omega
    rw [harith]

theorem findTocAux_step_start (i : Nat) (s0 : Option Nat) (l : List Char)
    (ls : List (List Char))
    (hsm : isStartMarkerLine (trimC l) = true)
    (hend : containsC tocEndWord (trimC l) = false)
    (hph : (trimC l == TOC_PLACEHOLDER) = false) :
    findTocAux i s0 (l :: ls) = findTocAux (i + 1) (some i) ls := by
  simp [findTocAux, hsm, hend, hph]

theorem findTocAux_step_inert (i : Nat) (s0 : Option Nat) (l : List Char)
    (ls : List (List Char))
    (hsm : isStartMarkerLine (trimC l) = false)
    (hend : containsC tocEndWord (trimC l) = false)
    (hph : (trimC l == TOC_PLACEHOLDER) = false) :
    findTocAux i s0 (l :: ls) = findTocAux (i + 1) s0 ls := by
  simp [findTocAux, hsm, hend, hph]

theorem findTocAux_step_end (i p : Nat) (l : List Char) (ls : List (List Char))
    (hsm : isStartMarkerLine (trimC l) = false)
    (hend : containsC tocEndWord (trimC l) = true) :
    findTocAux i (some p) (l :: ls) = some (p, i) := by
  simp [findTocAux, hsm, hend]

theorem findTocAux_wrapped (tocLs : List (List Char)) (suffix : List (List Char))
    (p : Nat) (s0 : Option Nat)
    (hall : ∀ l ∈ tocLs, isStartMarkerLine (trimC l) = false ∧
      containsC tocEndWord (trimC l) = false ∧
      (trimC l == TOC_PLACEHOLDER) = false) :
    findTocAux p s0 ((TOC_START :: [] :: (tocLs ++ [[], TOC_END])) ++ suffix) =
      some (p, p + tocLs.length + 3) := by
  have h0 : (TOC_START :: [] :: (tocLs ++ [[], TOC_END])) ++ suffix =
      TOC_START :: [] :: (tocLs ++ ([] :: TOC_END :: suffix)) := by
    simp [List.cons_append, List.append_assoc]
  rw [h0]
  rw [findTocAux_step_start p s0 TOC_START _ (by decide) (by decide) (by decide)]
  rw [findTocAux_step_inert (p + 1) (some p) [] _ (by decide) (by decide) (by decide)]
  rw [findTocAux_fixed_skip tocLs (p + 1 + 1) p ([] :: TOC_END :: suffix) hall]
  rw [findTocAux_step_inert (p + 1 + 1 + tocLs.length) (some p) [] _ (by decide)
    (by decide) (by decide)]
  rw [findTocAux_step_end (p + 1 + 1 + tocLs.length + 1) p TOC_END suffix (by decide)
    (by decide)]
  have : p + 1 + 1 + tocLs.length + 1 = p + tocLs.length + 3 := by omega
  rw [this]

theorem findTocAux_bounds (ls : List (List Char)) :
    ∀ (i : Nat) (s0 : Option Nat) (a b : Nat), findTocAux i s0 ls = some (a, b) →
      i ≤ b ∧ b < i + ls.length ∧ (a ≤ b ∨ s0 = some a) := by
  induction ls with
  | nil => intro i s0 a b h; simp [findTocAux] at h
  | cons l ls ih =>
    intro i s0 a b h
    simp only [findTocAux] at h
    by_cases h1 :
        ((if isStartMarkerLine (trimC l) then some i else s0).isSome &&
          containsC tocEndWord (trimC l)) = true
    · rw [if_pos h1] at h
      injection h with h'
      injection h' with ha hb
      subst hb
      refine ⟨le_refl i, by simp [List.length_cons], ?_⟩
      by_cases h4 : isStartMarkerLine (trimC l) = true
      · rw [if_pos h4] at ha
        simp only [Option.getD_some] at ha
        exact Or.inl (le_of_eq ha.symm)
      · rw [if_neg h4] at ha
        rcases hs0 : s0 with _ | x
        · rw [hs0] at h1 ha
          rw [if_neg h4] at h1
          simp at h1
        · rw [hs0] at ha
          simp only [Option.getD_some] at ha
          exact Or.inr (by rw [ha])
    · rw [if_neg h1] at h
      by_cases h2 : ((trimC l) == TOC_PLACEHOLDER) = true
      · rw [if_pos h2] at h
        injection h with h'
        injection h' with ha hb
        subst ha; subst hb
        exact ⟨le_refl _, by simp [List.length_cons], Or.inl (le_refl _)⟩
      · rw [if_neg h2] at h
        obtain ⟨hib, hbl, hor⟩ := ih (i + 1) _ a b h
        refine ⟨by omega, by simp only [List.length_cons]; omega, ?_⟩
        rcases hor with h3 | h3
        · exact Or.inl h3
        · by_cases h4 : isStartMarkerLine (trimC l) = true
          · rw [if_pos h4] at h3
            injection h3 with ha
            exact Or.inl (by omega)
          · rw [if_neg h4] at h3
            exact Or.inr h3

/-! Lemmas about the heading scanner. -/

theorem tocStep_nil_line (opts : TocOptions) (st : ScanState) :
    tocStep opts st [] = (st, none) := by
  have h1 : containsC commentStartPat [] = false := by decide
  have h2 : containsC commentEndPat [] = false := by decide
  have h3 : isCodeBlockMarker [] = none := by decide
  have h4 : parseHeader [] = none := by decide
  rcases st with ⟨ic, m, ihc⟩
  cases ic <;> cases ihc <;>
    simp [tocStep, tocStepCode, h1, h2, h3, h4]

theorem scanLines_nil_line (opts : TocOptions) (st : ScanState) (ls : List (List Char)) :
    scanLines opts st ([] :: ls) = scanLines opts st ls := by
  simp [scanLines, tocStep_nil_line]

theorem scanLines_dropWhile_newlines (opts : TocOptions) (s : List Char) :
    scanLines opts initScanState (splitLines s) =
      scanLines opts initScanState (splitLines (s.dropWhile (fun c => c == '\n'))) := by
  induction s with
  | nil => rfl
  | cons c rest ih =>
    by_cases hc : (c == '\n') = true
    · rw [splitLines_cons_eq, if_pos hc, scanLines_nil_line, ih,
        List.dropWhile_cons]
      simp only [hc, if_true]
    · rw [List.dropWhile_cons]
      simp only [hc, if_false, Bool.false_eq_true]

theorem scanLines_in_comment_no_end (opts : TocOptions) (ls : List (List Char)) :
    ∀ m : List Char,
      (∀ l ∈ ls, containsC commentEndPat l = false) →
      scanLines opts { inCodeBlock := false, codeBlockMarker := m, inHtmlComment := true } ls = [] := by
  induction ls with
  | nil => intro m _; rfl
  | cons l ls ih =>
    intro m hall
    have hl := hall l (List.mem_cons_self _ _)
    have hrest : ∀ x ∈ ls, containsC commentEndPat x = false :=
      fun x hx => hall x (List.mem_cons_of_mem _ hx)
    by_cases hcs : containsC commentStartPat l = true
    · have hstep : tocStep opts ⟨false, m, true⟩ l = (⟨false, m, true⟩, none) := by
        simp [tocStep, hcs, hl]
      simp only [scanLines, hstep]
      exact ih m hrest
    · have hstep : tocStep opts ⟨false, m, true⟩ l = (⟨false, m, true⟩, none) := by
        simp [tocStep, hcs, hl]
      simp only [scanLines, hstep]
      exact ih m hrest

/-! Helper for the backtick parity claim. -/

theorem replaceBackticksAux_append (a b : List Char) : ∀ k : Nat,
    replaceBackticksAux k (a ++ b) =
      replaceBackticksAux k a ++ replaceBackticksAux (k + List.count btChar a) b := by
  induction a with
  | nil => intro k; simp [replaceBackticksAux]
  | cons c rest ih =>
    intro k
    rw [List.cons_append]
    by_cases hc : (c == btChar) = true
    · have hcount : List.count btChar (c :: rest) = List.count btChar rest + 1 := by
        simp [List.count_cons, hc]
      simp only [replaceBackticksAux, if_pos hc, List.append_eq]
      rw [ih (k + 1), hcount]
      have harith : k + 1 + List.count btChar rest = k + (List.count btChar rest + 1) := by
        omega
      rw [harith, List.append_assoc]
    · have hcount : List.count btChar (c :: rest) = List.count btChar rest := by
        simp [List.count_cons, hc]
      simp only [replaceBackticksAux, if_neg hc, List.append_eq]
      rw [ih k, hcount]
      simp [List.cons_append]

/-! Claim theorems. -/

/-- C1: the six anchor examples of the spec hold exactly: apostrophes and
punctuation are removed, `&` becomes `amp`, underscores vanish, quotes
vanish, whitespace runs collapse to one dash, and a markdown link collapses
to its text before punctuation removal so the URL never leaks. -/
theorem slugify_spec_examples :
    generateDevToAnchor (("It\x27s awesome!").data) = ("its-awesome").data ∧
    generateDevToAnchor (("Hello & goodbye").data) = ("hello-amp-goodbye").data ∧
    generateDevToAnchor (("Some __bold__ text").data) = ("some-bold-text").data ∧
    generateDevToAnchor (("\"Hello\" means \x27Bonjour\x27").data) = ("hello-means-bonjour").data ∧
    generateDevToAnchor (("Hello   World").data) = ("hello-world").data ∧
    generateDevToAnchor (("Check out [bitdowntoc](https://example.com)").data) =
      ("check-out-bitdowntoc").data :=
  ⟨by decide, by decide, by decide, by decide, by decide, by decide⟩

/-- C2: in step 8 of the slugifier, the backtick whose 0-based occurrence
index among all backticks (the number of backticks strictly before it) is
even — i.e. the 1st, 3rd, 5th… backtick in document order — becomes the
literal token ` raw `, and the other parity becomes ` endraw `; moreover
`slugify("Code: `<tag>` here") = "code-raw-lttaggt-endraw-here"`. -/
theorem backtick_parity_step8 :
    (∀ pre suf : List Char,
      replaceBackticksAux 0 (pre ++ btChar :: suf) =
        replaceBackticksAux 0 pre ++
          ((if List.count btChar pre % 2 = 0 then (" raw ").data else (" endraw ").data) ++
            replaceBackticksAux (List.count btChar pre + 1) suf)) ∧
    generateDevToAnchor (("Code: \x60<tag>\x60 here").data) =
      ("code-raw-lttaggt-endraw-here").data := by
  constructor
  · intro pre suf
    rw [replaceBackticksAux_append]
    have hstep : replaceBackticksAux (0 + List.count btChar pre) (btChar :: suf) =
        (if List.count btChar pre % 2 = 0 then (" raw ").data else (" endraw ").data) ++
          replaceBackticksAux (List.count btChar pre + 1) suf := by
      simp only [Nat.zero_add, replaceBackticksAux, beq_self_eq_true, if_pos]
      by_cases h : List.count btChar pre % 2 = 0 <;> simp [h]
    rw [hstep]
  · decide

/-- C4: when, after stripping any existing TOC block, no heading at or below
`maxLevel` is found, `updateToc` returns the original document unchanged:
it neither inserts an empty TOC nor strips the existing TOC block. -/
theorem updateToc_noop_on_headingless (d : List Char)
    (h : extractTocEntries (removeExistingToc d).1 defaultOptions = []) :
    updateToc d defaultOptions = d := by
  simp [updateToc, h]

/-- Witness for C4 at a concrete headingless document. -/
theorem updateToc_noop_on_headingless_witness :
    extractTocEntries (removeExistingToc (("plain text\nno headings here").data)).1
      defaultOptions = [] ∧
    updateToc (("plain text\nno headings here").data) defaultOptions =
      ("plain text\nno headings here").data :=
  ⟨by decide, updateToc_noop_on_headingless _ (by decide)⟩

/-- C6 counterexample: `needsTocUpdate` is a raw substring test, so `[TOC]`
occurring mid-line makes it true although no line trims to `[TOC]` and no
start-marker line exists; the claimed iff fails on this input. -/
theorem needsTocUpdate_counterexample :
    needsTocUpdate (("foo [TOC] bar").data) = true ∧
    claimTocLineMarker (("foo [TOC] bar").data) = false := by
  decide

/-- C6 amended: `needsTocUpdate content` is true iff the document contains
one of the four literal substrings `[TOC]`, `{%- # TOC start`,
`{% comment %}TOC start`, `<!-- TOC start` anywhere (not the line-based
marker grammar of the interface section). -/
theorem needsTocUpdate_amended_iff (d : List Char) :
    needsTocUpdate d = true ↔
      (∃ u v, d = u ++ TOC_PLACEHOLDER ++ v) ∨ (∃ u v, d = u ++ liquidTocPat ++ v) ∨
        (∃ u v, d = u ++ commentTocPat ++ v) ∨ (∃ u v, d = u ++ htmlTocPat ++ v) := by
  simp only [needsTocUpdate, hasToc, Bool.or_eq_true, containsC_iff_append]
  rw [or_assoc, or_assoc]

/-- C7: while the scanner is in the in-code-block or in-comment state, a
line is never emitted as a heading event, an in-code-block line never
starts a comment transition, an in-comment line never starts a code-block
transition, and the spec's fenced `## fake heading` document yields no TOC
entries at all. -/
theorem scanner_skips_code_and_comment (opts : TocOptions) (st : ScanState)
    (l : List Char) (h : st.inCodeBlock = true ∨ st.inHtmlComment = true) :
    (tocStep opts st l).2 = none ∧
    (st.inCodeBlock = true → (tocStep opts st l).1.inHtmlComment = st.inHtmlComment) ∧
    (st.inCodeBlock = false → (tocStep opts st l).1.inCodeBlock = false) ∧
    extractTocEntries (("\x60\x60\x60\n## fake heading\n\x60\x60\x60").data)
      defaultOptions = [] := by
  rcases st with ⟨ic, m, ihc⟩
  cases ic
  · have hcomment : ihc = true := by
      rcases h with h | h
      · exact absurd h (by simp)
      · exact h
    subst hcomment
    by_cases h1 : (containsC commentStartPat l && !(containsC commentEndPat l)) = true
    · have hstep : tocStep opts ⟨false, m, true⟩ l = (⟨false, m, true⟩, none) := by
        simp only [tocStep]
        rw [if_neg (by simp), if_pos h1]
      rw [hstep]
      exact ⟨rfl, fun hh => absurd hh (by simp), fun _ => rfl, by decide⟩
    · by_cases h2 : containsC commentEndPat l = true
      · have hstep : tocStep opts ⟨false, m, true⟩ l = (⟨false, m, false⟩, none) := by
          simp only [tocStep]
          rw [if_neg (by simp), if_neg h1, if_pos (by simp), if_pos h2]
        rw [hstep]
        exact ⟨rfl, fun hh => absurd hh (by simp), fun _ => rfl, by decide⟩
      · have hstep : tocStep opts ⟨false, m, true⟩ l = (⟨false, m, true⟩, none) := by
          simp only [tocStep]
          rw [if_neg (by simp), if_neg h1, if_pos (by simp),
            if_neg (by simp [h2])]
        rw [hstep]
        exact ⟨rfl, fun hh => absurd hh (by simp), fun _ => rfl, by decide⟩
  · have hstep : tocStep opts ⟨true, m, ihc⟩ l = tocStepCode opts ⟨true, m, ihc⟩ l := by
      simp [tocStep]
    rw [hstep]
    cases hm : isCodeBlockMarker l with
    | some mk =>
      simp only [tocStepCode, hm]
      rw [if_pos (by simp)]
      split
      · exact ⟨rfl, fun _ => rfl, fun hh => absurd hh (by simp), by decide⟩
      · exact ⟨rfl, fun _ => rfl, fun hh => absurd hh (by simp), by decide⟩
    | none =>
      simp only [tocStepCode, hm]
      rw [if_pos (by simp)]
      exact ⟨rfl, fun _ => rfl, fun hh => absurd hh (by simp), by decide⟩

/-- Witness for C7: the state inside a backtick fence skips a fake heading. -/
theorem scanner_skips_code_and_comment_witness :
    ((⟨true, ("\x60\x60\x60").data, false⟩ : ScanState).inCodeBlock = true ∨
      (⟨true, ("\x60\x60\x60").data, false⟩ : ScanState).inHtmlComment = true) ∧
    ((tocStep defaultOptions ⟨true, ("\x60\x60\x60").data, false⟩
        (("## fake heading").data)).2 = none ∧
      ((⟨true, ("\x60\x60\x60").data, false⟩ : ScanState).inCodeBlock = true →
        (tocStep defaultOptions ⟨true, ("\x60\x60\x60").data, false⟩
          (("## fake heading").data)).1.inHtmlComment =
          (⟨true, ("\x60\x60\x60").data, false⟩ : ScanState).inHtmlComment) ∧
      ((⟨true, ("\x60\x60\x60").data, false⟩ : ScanState).inCodeBlock = false →
        (tocStep defaultOptions ⟨true, ("\x60\x60\x60").data, false⟩
          (("## fake heading").data)).1.inCodeBlock = false) ∧
      extractTocEntries (("\x60\x60\x60\n## fake heading\n\x60\x60\x60").data)
        defaultOptions = []) :=
  ⟨Or.inl rfl,
    scanner_skips_code_and_comment defaultOptions _ _ (Or.inl rfl)⟩

/-- C8 counterexample: a line that both opens a backtick fence and contains
`<!--` without `-->` is processed, from the normal state, as a comment
opener, not as a code-fence opener — the source checks comments first. -/
theorem fence_comment_order_counterexample :
    isCodeBlockMarker (("\x60\x60\x60 <!--").data) = some (("\x60\x60\x60").data) ∧
    containsC commentStartPat (("\x60\x60\x60 <!--").data) = true ∧
    containsC commentEndPat (("\x60\x60\x60 <!--").data) = false ∧
    (tocStep defaultOptions initScanState (("\x60\x60\x60 <!--").data)).1.inCodeBlock =
      false ∧
    (tocStep defaultOptions initScanState (("\x60\x60\x60 <!--").data)).1.inHtmlComment =
      true := by
  decide

/-- C8 amended: on each line the scanner checks the HTML-comment transition
before the code-fence transition (guarded by not-in-code-block), so a
normal-state line containing `<!--` without `-->` always enters the
in-comment state, never the in-code-block state, even if it also opens a
fence. -/
theorem comment_before_fence_amended (opts : TocOptions) (m l : List Char)
    (h1 : containsC commentStartPat l = true)
    (h2 : containsC commentEndPat l = false) :
    tocStep opts ⟨false, m, false⟩ l = (⟨false, m, true⟩, none) := by
  simp only [tocStep]
  rw [if_neg (by simp), if_pos (by simp [h1, h2])]

/-- Witness for C8 at the fence-plus-comment line. -/
theorem comment_before_fence_amended_witness :
    containsC commentStartPat (("\x60\x60\x60js <!--").data) = true ∧
    containsC commentEndPat (("\x60\x60\x60js <!--").data) = false ∧
    tocStep defaultOptions ⟨false, [], false⟩ (("\x60\x60\x60js <!--").data) =
      (⟨false, [], true⟩, none) :=
  ⟨by decide, by decide,
    comment_before_fence_amended defaultOptions [] _ (by decide) (by decide)⟩

/-- C10 counterexample: the document fences the `<!--` line, so although it
contains `<!--` with no `-->` on it and no later line contains `-->`, the
later heading `# H` is still emitted into the TOC entries. -/
theorem unterminated_comment_counterexample :
    (splitLines (("\x60\x60\x60\n<!-- x\n\x60\x60\x60\n# H").data)).get? 1 =
      some (("<!-- x").data) ∧
    containsC commentStartPat (("<!-- x").data) = true ∧
    containsC commentEndPat (("<!-- x").data) = false ∧
    ((splitLines (("\x60\x60\x60\n<!-- x\n\x60\x60\x60\n# H").data)).drop 2).all
      (fun l => !(containsC commentEndPat l)) = true ∧
    extractTocEntries (("\x60\x60\x60\n<!-- x\n\x60\x60\x60\n# H").data) defaultOptions =
      [{ indent := 0, title := ("H").data, link := ("h").data }] := by
  decide

/-- C10 amended: when the `<!--`-without-`-->` line is processed while the
scanner is not inside a code block, and no subsequent line contains `-->`,
no heading on any later line is ever emitted. -/
theorem unterminated_comment_amended (opts : TocOptions) (st : ScanState)
    (l : List Char) (ls : List (List Char))
    (hst : st.inCodeBlock = false)
    (h1 : containsC commentStartPat l = true)
    (h2 : containsC commentEndPat l = false)
    (hall : ∀ x ∈ ls, containsC commentEndPat x = false) :
    scanLines opts st (l :: ls) = [] := by
  rcases st with ⟨ic, m, ihc⟩
  have hic : ic = false := hst
  subst hic
  have hstep : tocStep opts ⟨false, m, ihc⟩ l = (⟨false, m, true⟩, none) := by
    simp only [tocStep]
    rw [if_neg (by simp), if_pos (by simp [h1, h2])]
  simp only [scanLines, hstep]
  exact scanLines_in_comment_no_end opts ls m hall

/-- Witness for C10 at a concrete two-line tail. -/
theorem unterminated_comment_amended_witness :
    initScanState.inCodeBlock = false ∧
    containsC commentStartPat (("<!-- open").data) = true ∧
    containsC commentEndPat (("<!-- open").data) = false ∧
    (∀ x ∈ [("# Hidden heading").data], containsC commentEndPat x = false) ∧
    scanLines defaultOptions initScanState
      [("<!-- open").data, ("# Hidden heading").data] = [] :=
  ⟨rfl, by decide, by decide, by decide,
    unterminated_comment_amended defaultOptions initScanState _ _ rfl (by decide)
      (by decide) (by decide)⟩

/-- C9: the composer maps the empty entry sequence to the empty string and,
with trim-indent enabled and a nonempty charset, renders each entry with
`(indent − minIndent) * indentSpaces` leading spaces, a bullet from the
charset indexed by the render indent modulo the charset length, the line
shape `spaces bullet [title](#anchor)`, joined by newlines with no trailing
newline; `minIndent` is the minimum indent over all entries. -/
theorem generateTocMarkdown_postcondition (opts : TocOptions) (entries : List TocEntry)
    (htrim : opts.trimTocIndent = true) (hchars : 0 < opts.indentChars.length) :
    generateTocMarkdown [] opts = [] ∧
    (entries ≠ [] →
      generateTocMarkdown entries opts =
        joinLines (entries.map (fun e =>
          List.replicate ((e.indent - ((entries.map TocEntry.indent).min?.getD 0)) *
              opts.indentSpaces) ' ' ++
            [opts.indentChars.getD
              ((e.indent - ((entries.map TocEntry.indent).min?.getD 0)) %
                opts.indentChars.length) ' '] ++
            (" [").data ++ e.title ++ ("](#").data ++ e.link ++ (")").data))) := by
  refine ⟨rfl, ?_⟩
  intro hne
  cases entries with
  | nil => cases hne rfl
  | cons e0 rest =>
    have hmin : (((e0 :: rest).map TocEntry.indent).min?).getD 0 =
        rest.foldl (fun a e => min a e.indent) e0.indent := by
      have h1 : ((e0 :: rest).map TocEntry.indent).min? =
          some ((rest.map TocEntry.indent).foldl min e0.indent) := rfl
      rw [h1, Option.getD_some, List.foldl_map]
    simp only [generateTocMarkdown, htrim, if_true, hmin]
    refine congrArg joinLines (congrFun (congrArg List.map ?_) (e0 :: rest))
    funext e
    have hlt : (e.indent - rest.foldl (fun a e => min a e.indent) e0.indent) %
        opts.indentChars.length < opts.indentChars.length := Nat.mod_lt _ hchars
    have hg : opts.indentChars.get?
        ((e.indent - rest.foldl (fun a e => min a e.indent) e0.indent) %
          opts.indentChars.length) =
        some (opts.indentChars.getD
          ((e.indent - rest.foldl (fun a e => min a e.indent) e0.indent) %
            opts.indentChars.length) ' ') := by
      rw [List.get?_eq_getElem?, List.getD_eq_getElem?_getD,
        List.getElem?_eq_getElem hlt]
      rfl
    rw [hg]

/-- Witness for C9 on two concrete entries under the default options. -/
theorem generateTocMarkdown_postcondition_witness :
    defaultOptions.trimTocIndent = true ∧
    0 < defaultOptions.indentChars.length ∧
    (generateTocMarkdown [] defaultOptions = [] ∧
      ([({ indent := 1, title := ("B").data, link := ("b").data } : TocEntry),
        { indent := 2, title := ("C").data, link := ("c").data }] ≠ [] →
        generateTocMarkdown
          [{ indent := 1, title := ("B").data, link := ("b").data },
           { indent := 2, title := ("C").data, link := ("c").data }] defaultOptions =
          joinLines
            (([({ indent := 1, title := ("B").data, link := ("b").data } : TocEntry),
              { indent := 2, title := ("C").data, link := ("c").data }]).map (fun e =>
              List.replicate ((e.indent -
                  ((([({ indent := 1, title := ("B").data, link := ("b").data } : TocEntry),
                    { indent := 2, title := ("C").data, link := ("c").data }]).map
                      TocEntry.indent).min?.getD 0)) *
                  defaultOptions.indentSpaces) ' ' ++
                [defaultOptions.indentChars.getD
                  ((e.indent -
                    ((([({ indent := 1, title := ("B").data, link := ("b").data } : TocEntry),
                      { indent := 2, title := ("C").data, link := ("c").data }]).map
                        TocEntry.indent).min?.getD 0)) %
                    defaultOptions.indentChars.length) ' '] ++
                (" [").data ++ e.title ++ ("](#").data ++ e.link ++ (")").data)))) :=
  ⟨rfl, by decide,
    generateTocMarkdown_postcondition defaultOptions _ rfl (by decide)⟩

/-- C5 counterexample: on a document with leading front matter, no TOC
marker and one heading, `updateToc` puts the marker-wrapped TOC at the very
beginning of the document, before the front matter, so the result no longer
starts with `---`. -/
theorem frontmatter_insert_counterexample :
    findTocPosition (("---\ntitle: x\n---\n# H").data) = none ∧
    startsWithC (("---").data) (("---\ntitle: x\n---\n# H").data) = true ∧
    extractTocEntries (("---\ntitle: x\n---\n# H").data) defaultOptions ≠ [] ∧
    updateToc (("---\ntitle: x\n---\n# H").data) defaultOptions =
      ("\n<!-- TOC start -->\n\n- [H](#h)\n\n<!-- TOC end -->\n\n---\ntitle: x\n---\n# H").data ∧
    startsWithC (("---").data)
      (updateToc (("---\ntitle: x\n---\n# H").data) defaultOptions) = false :=
  ⟨by decide, by decide, by decide, by decide, by decide⟩

/-- C5 amended: when no TOC marker is found and at least one heading
exists, `updateToc` always inserts the marker-wrapped block at the document
start — a leading newline, the block, one blank line, then the content —
even when the document begins with a `---` front-matter block (front-matter
aware placement is done by the callers, which strip the front matter before
invoking `updateToc`). -/
theorem updateToc_inserts_at_start_amended (d : List Char)
    (hfm : startsWithC (("---").data) d = true)
    (hpos : findTocPosition d = none)
    (hne : extractTocEntries d defaultOptions ≠ []) :
    updateToc d defaultOptions =
      '\n' :: (wrapToc (generateTocMarkdown (extractTocEntries d defaultOptions)
        defaultOptions) ++ '\n' :: '\n' :: d) := by
  have hrem : removeExistingToc d = (d, none) := by
    unfold removeExistingToc
    rw [hpos]
  have hdrop : d.dropWhile (fun c => c == '\n') = d := by
    obtain ⟨t, rfl⟩ := (startsWithC_iff_append _ _).1 hfm
    have hsh : ("---").data ++ t = '-' :: '-' :: '-' :: t := rfl
    rw [hsh, List.dropWhile_cons, if_neg (by decide)]
  have hemp : (extractTocEntries d defaultOptions).isEmpty = false := by
    cases hE : extractTocEntries d defaultOptions with
    | nil => exact absurd hE hne
    | cons a as => rfl
  simp only [updateToc, hrem, hemp, Bool.false_eq_true, if_false, hdrop]

/-- Witness for C5 at a concrete front-matter document. -/
theorem updateToc_inserts_at_start_amended_witness :
    startsWithC (("---").data) (("---\ntitle: t\n---\n\n# A\n\n## B").data) = true ∧
    findTocPosition (("---\ntitle: t\n---\n\n# A\n\n## B").data) = none ∧
    extractTocEntries (("---\ntitle: t\n---\n\n# A\n\n## B").data) defaultOptions ≠ [] ∧
    updateToc (("---\ntitle: t\n---\n\n# A\n\n## B").data) defaultOptions =
      '\n' :: (wrapToc (generateTocMarkdown
        (extractTocEntries (("---\ntitle: t\n---\n\n# A\n\n## B").data) defaultOptions)
        defaultOptions) ++ '\n' :: '\n' :: (("---\ntitle: t\n---\n\n# A\n\n## B").data)) :=
  ⟨by decide, by decide, by decide,
    updateToc_inserts_at_start_amended _ (by decide) (by decide) (by decide)⟩

/-! Shape lemmas for `updateToc` and `removeExistingToc`, used to settle the
idempotence claim. -/

theorem removeExistingToc_of_none (content : List Char)
    (hfp : findTocPosition content = none) :
    removeExistingToc content = (content, none) := by
  unfold removeExistingToc
  rw [hfp]

theorem removeExistingToc_of_some (content : List Char) (s b : Nat)
    (hfp : findTocPosition content = some (s, b)) :
    removeExistingToc content =
      (joinLines ((splitLines content).take s ++ (splitLines content).drop (b + 1)),
        some (s, b)) := by
  unfold removeExistingToc
  rw [hfp]

theorem updateToc_shape_none (content : List Char) (opts : TocOptions)
    (hfp : findTocPosition content = none)
    (hne : (extractTocEntries content opts).isEmpty = false) :
    updateToc content opts =
      '\n' :: (wrapToc (generateTocMarkdown (extractTocEntries content opts) opts) ++
        '\n' :: '\n' :: content.dropWhile (fun c => c == '\n')) := by
  simp only [updateToc, removeExistingToc_of_none content hfp, hne, Bool.false_eq_true,
    if_false]

theorem updateToc_shape_some (content : List Char) (opts : TocOptions) (s b : Nat)
    (hfp : findTocPosition content = some (s, b))
    (hne : (extractTocEntries (removeExistingToc content).1 opts).isEmpty = false) :
    updateToc content opts =
      joinLines ((splitLines (removeExistingToc content).1).take s ++
        wrapToc (generateTocMarkdown
          (extractTocEntries (removeExistingToc content).1 opts) opts) ::
          (splitLines (removeExistingToc content).1).drop s) := by
  have h2 : (removeExistingToc content).2 = some (s, b) := by
    rw [removeExistingToc_of_some content s b hfp]
  simp only [updateToc, hne, Bool.false_eq_true, if_false, h2]

theorem wrapToc_eq_joinLines (toc : List Char) :
    wrapToc toc = joinLines (TOC_START :: [] :: (splitLines toc ++ [[], TOC_END])) := by
  unfold wrapToc
  conv_lhs => rw [← joinLines_splitLines toc]
  have hshape : [TOC_START, [], joinLines (splitLines toc), [], TOC_END] =
      [TOC_START, []] ++ joinLines (splitLines toc) :: [[], TOC_END] := rfl
  rw [hshape,
    joinLines_flatten [TOC_START, []] (splitLines toc) [[], TOC_END]
      (splitLines_ne_nil toc)]
  rfl

theorem joinLines_nil_head (ls : List (List Char)) (h : ls ≠ []) :
    joinLines ([] :: ls) = '\n' :: joinLines ls := by
  cases ls with
  | nil => cases h rfl
  | cons a as => rfl

theorem mem_wrapLines_no_newline (toc : List Char) :
    ∀ l ∈ TOC_START :: [] :: (splitLines toc ++ [[], TOC_END]), '\n' ∉ l := by
  intro l hl
  rcases List.mem_cons.1 hl with rfl | hl
  · decide
  rcases List.mem_cons.1 hl with rfl | hl
  · simp
  rcases List.mem_append.1 hl with hl | hl
  · exact mem_splitLines_no_newline toc l hl
  · rcases List.mem_cons.1 hl with rfl | hl
    · simp
    · rcases List.mem_cons.1 hl with rfl | hl
      · decide
      · cases hl

/-- C3 counterexample: the document `# TOC end notes\n## Second` has two
headings at or below the default `maxLevel`, yet running `updateToc` twice
differs from running it once — the regenerated TOC line containing the
substring `TOC end` is mistaken for the block's end marker on the second
run, so part of the inserted block is left behind and duplicated around. -/
theorem updateToc_idempotent_counterexample :
    extractTocEntries
        (removeExistingToc (("# TOC end notes\n## Second").data)).1 defaultOptions ≠ [] ∧
    updateToc (updateToc (("# TOC end notes\n## Second").data) defaultOptions)
        defaultOptions ≠
      updateToc (("# TOC end notes\n## Second").data) defaultOptions :=
  ⟨by decide, by decide⟩

/-- C3 amended: `updateToc` with the default options is idempotent on every
document that still has at least one heading at or below `maxLevel` after
stripping any existing TOC block, provided no stray TOC-marker text can
confuse the marker scan: no line of the stripped document contains the
substring `TOC end` or trims to `[TOC]`, and no line of the regenerated TOC
markdown is a start-marker line, contains `TOC end`, or trims to `[TOC]`.
The counterexample shows the claim fails without such a proviso. -/
theorem updateToc_idempotent_amended (d : List Char)
    (hne : entriesOf d ≠ [])
    (hcEnd : ∀ l ∈ splitLines (cleanOf d), containsC tocEndWord (trimC l) = false)
    (hcPh : ∀ l ∈ splitLines (cleanOf d), (trimC l == TOC_PLACEHOLDER) = false)
    (htSm : ∀ l ∈ tocLinesOf d, isStartMarkerLine (trimC l) = false)
    (htEnd : ∀ l ∈ tocLinesOf d, containsC tocEndWord (trimC l) = false)
    (htPh : ∀ l ∈ tocLinesOf d, (trimC l == TOC_PLACEHOLDER) = false) :
    updateToc (updateToc d defaultOptions) defaultOptions =
      updateToc d defaultOptions := by
  have ht_all : ∀ l ∈ tocLinesOf d,
      isStartMarkerLine (trimC l) = false ∧
      containsC tocEndWord (trimC l) = false ∧
      (trimC l == TOC_PLACEHOLDER) = false :=
    fun l hl => ⟨htSm l hl, htEnd l hl, htPh l hl⟩
  have hwrapW : wrapToc (tocOf d) = joinLines (wrapLinesOf d) :=
    wrapToc_eq_joinLines (tocOf d)
  have hWnn : ∀ l ∈ wrapLinesOf d, '\n' ∉ l := mem_wrapLines_no_newline (tocOf d)
  have hWne : wrapLinesOf d ≠ [] := by simp [wrapLinesOf]
  cases hfp : findTocPosition d with
  | none =>
    have hrd : removeExistingToc d = (d, none) := removeExistingToc_of_none d hfp
    have hcl : cleanOf d = d := by simp only [cleanOf, hrd]
    have htocd : tocOf d =
        generateTocMarkdown (extractTocEntries d defaultOptions) defaultOptions := by
      simp only [tocOf, entriesOf, hcl]
    have hEmpF : (extractTocEntries d defaultOptions).isEmpty = false := by
      cases hE : extractTocEntries d defaultOptions with
      | nil =>
        exact absurd hE (by simpa only [entriesOf, hcl] using hne)
      | cons a as => rfl
    have hrun1 := updateToc_shape_none d defaultOptions hfp hEmpF
    rw [← htocd] at hrun1
    have hSLne := splitLines_ne_nil (d.dropWhile (fun c => c == '\n'))
    have hjoinE : joinLines (([] : List Char) ::
        (wrapLinesOf d ++ [] :: splitLines (d.dropWhile (fun c => c == '\n')))) =
        updateToc d defaultOptions := by
      rw [joinLines_nil_head _ (by simp [wrapLinesOf]),
        joinLines_append _ _ hWne (by simp),
        joinLines_nil_head _ hSLne,
        joinLines_splitLines (d.dropWhile (fun c => c == '\n')),
        hrun1, hwrapW]
    have hnn : ∀ l ∈ (([] : List Char) ::
        (wrapLinesOf d ++ [] :: splitLines (d.dropWhile (fun c => c == '\n')))),
        '\n' ∉ l := by
      intro l hl
      rcases List.mem_cons.1 hl with rfl | hl
      · simp
      rcases List.mem_append.1 hl with hl | hl
      · exact hWnn l hl
      · rcases List.mem_cons.1 hl with rfl | hl
        · simp
        · exact mem_splitLines_no_newline _ l hl
    have hsplitE : splitLines (updateToc d defaultOptions) =
        ([] : List Char) ::
          (wrapLinesOf d ++ [] :: splitLines (d.dropWhile (fun c => c == '\n'))) := by
      rw [← hjoinE]
      exact splitLines_joinLines _ (by simp) hnn
    have hfp2 : findTocPosition (updateToc d defaultOptions) =
        some (1, 1 + (tocLinesOf d).length + 3) := by
      unfold findTocPosition
      rw [hsplitE,
        findTocAux_step_inert 0 none [] _ (by decide) (by decide) (by decide)]
      exact findTocAux_wrapped (tocLinesOf d) _ 1 none ht_all
    have hrem2 := removeExistingToc_of_some (updateToc d defaultOptions) 1
      (1 + (tocLinesOf d).length + 3) hfp2
    have htake1 : (splitLines (updateToc d defaultOptions)).take 1 =
        [([] : List Char)] := by
      rw [hsplitE]
      rfl
    have hdropN : (splitLines (updateToc d defaultOptions)).drop
        (1 + (tocLinesOf d).length + 3 + 1) =
        ([] : List Char) :: splitLines (d.dropWhile (fun c => c == '\n')) := by
      rw [hsplitE]
      have hshape : (([] : List Char) ::
          (wrapLinesOf d ++ [] :: splitLines (d.dropWhile (fun c => c == '\n')))) =
          (([] : List Char) :: wrapLinesOf d) ++
            ([] :: splitLines (d.dropWhile (fun c => c == '\n'))) := rfl
      rw [hshape]
      apply List.drop_left'
      simp [wrapLinesOf]
      omega
    have hclean2 : (removeExistingToc (updateToc d defaultOptions)).1 =
        joinLines ([([] : List Char)] ++
          ([] :: splitLines (d.dropWhile (fun c => c == '\n')))) := by
      rw [hrem2]
      dsimp only
      rw [htake1, hdropN]
    have hentries2 :
        extractTocEntries (removeExistingToc (updateToc d defaultOptions)).1
          defaultOptions = extractTocEntries d defaultOptions := by
      rw [hclean2]
      unfold extractTocEntries
      rw [splitLines_joinLines _ (by simp) (fun l hl => by
        rcases List.mem_cons.1 hl with rfl | hl
        · simp
        rcases List.mem_cons.1 hl with rfl | hl
        · simp
        · exact mem_splitLines_no_newline _ l hl)]
      rw [show ([([] : List Char)] ++
          (([] : List Char) :: splitLines (d.dropWhile (fun c => c == '\n')))) =
          ([] : List Char) :: ([] : List Char) ::
            splitLines (d.dropWhile (fun c => c == '\n')) from rfl]
      rw [scanLines_nil_line, scanLines_nil_line]
      exact (scanLines_dropWhile_newlines defaultOptions d).symm
    have hEmpF2 : (extractTocEntries
        (removeExistingToc (updateToc d defaultOptions)).1 defaultOptions).isEmpty =
        false := by
      rw [hentries2]; exact hEmpF
    have hrun2 := updateToc_shape_some (updateToc d defaultOptions) defaultOptions 1
      (1 + (tocLinesOf d).length + 3) hfp2 hEmpF2
    rw [hrun2]
    have hsplit2 : splitLines (removeExistingToc (updateToc d defaultOptions)).1 =
        ([] : List Char) :: ([] : List Char) ::
          splitLines (d.dropWhile (fun c => c == '\n')) := by
      rw [hclean2]
      rw [show ([([] : List Char)] ++
          (([] : List Char) :: splitLines (d.dropWhile (fun c => c == '\n')))) =
          ([] : List Char) :: ([] : List Char) ::
            splitLines (d.dropWhile (fun c => c == '\n')) from rfl]
      exact splitLines_joinLines _ (by simp) (fun l hl => by
        rcases List.mem_cons.1 hl with rfl | hl
        · simp
        rcases List.mem_cons.1 hl with rfl | hl
        · simp
        · exact mem_splitLines_no_newline _ l hl)
    rw [hsplit2, hentries2, ← htocd, hwrapW]
    rw [show (([] : List Char) :: ([] : List Char) ::
        splitLines (d.dropWhile (fun c => c == '\n'))).take 1 = [([] : List Char)]
      from rfl]
    rw [show (([] : List Char) :: ([] : List Char) ::
        splitLines (d.dropWhile (fun c => c == '\n'))).drop 1 =
        ([] : List Char) :: splitLines (d.dropWhile (fun c => c == '\n')) from rfl]
    rw [joinLines_flatten [([] : List Char)] _ _ hWne]
    exact hjoinE
  | some sb =>
    obtain ⟨s, b⟩ := sb
    have hbounds := findTocAux_bounds (splitLines d) 0 none s b hfp
    obtain ⟨h0b, hblen, hor⟩ := hbounds
    have hsb : s ≤ b := by
      rcases hor with h | h
      · exact h
      · cases h
    have hrem1 := removeExistingToc_of_some d s b hfp
    by_cases hTD : (splitLines d).take s ++ (splitLines d).drop (b + 1) = []
    · exfalso
      apply hne
      have hclnil : cleanOf d = [] := by
        simp only [cleanOf, hrem1, hTD]
        rfl
      simp only [entriesOf, hclnil]
      decide
    · have hCL : splitLines (cleanOf d) =
          (splitLines d).take s ++ (splitLines d).drop (b + 1) := by
        simp only [cleanOf, hrem1]
        exact splitLines_joinLines _ hTD (fun l hl => by
          rcases List.mem_append.1 hl with h | h
          · exact mem_splitLines_no_newline d l (List.take_subset _ _ h)
          · exact mem_splitLines_no_newline d l (List.drop_subset _ _ h))
      have htakelen : ((splitLines d).take s).length = s := by
        rw [List.length_take]
        exact Nat.min_eq_left (by omega)
      have hEmpF1 : (extractTocEntries (removeExistingToc d).1
          defaultOptions).isEmpty = false := by
        cases hE : extractTocEntries (removeExistingToc d).1 defaultOptions with
        | nil => exact absurd hE (by simpa only [entriesOf, cleanOf] using hne)
        | cons a as => rfl
      have hrun1 := updateToc_shape_some d defaultOptions s b hfp hEmpF1
      have htocd : generateTocMarkdown
          (extractTocEntries (removeExistingToc d).1 defaultOptions) defaultOptions =
          tocOf d := rfl
      rw [htocd] at hrun1
      have htake : (splitLines (cleanOf d)).take s = (splitLines d).take s := by
        rw [hCL]
        exact List.take_left' htakelen
      have hdrop : (splitLines (cleanOf d)).drop s = (splitLines d).drop (b + 1) := by
        rw [hCL]
        exact List.drop_left' htakelen
      have hrun1' : updateToc d defaultOptions =
          joinLines ((splitLines d).take s ++
            wrapToc (tocOf d) :: (splitLines d).drop (b + 1)) := by
        rw [hrun1]
        rw [show splitLines (removeExistingToc d).1 = splitLines (cleanOf d) from rfl,
          htake, hdrop]
      have hflat : joinLines ((splitLines d).take s ++
          wrapToc (tocOf d) :: (splitLines d).drop (b + 1)) =
          joinLines ((splitLines d).take s ++
            (wrapLinesOf d ++ (splitLines d).drop (b + 1))) := by
        rw [hwrapW]
        exact joinLines_flatten _ _ _ hWne
      have hnnE : ∀ l ∈ (splitLines d).take s ++
          (wrapLinesOf d ++ (splitLines d).drop (b + 1)), '\n' ∉ l := by
        intro l hl
        rcases List.mem_append.1 hl with hl | hl
        · exact mem_splitLines_no_newline d l (List.take_subset _ _ hl)
        rcases List.mem_append.1 hl with hl | hl
        · exact hWnn l hl
        · exact mem_splitLines_no_newline d l (List.drop_subset _ _ hl)
      have hEne : (splitLines d).take s ++
          (wrapLinesOf d ++ (splitLines d).drop (b + 1)) ≠ [] := by
        intro hcontra
        have := congrArg List.length hcontra
        simp only [List.length_append, List.length_nil, wrapLinesOf,
          List.length_cons] at this
        omega
      have hsplitE : splitLines (updateToc d defaultOptions) =
          (splitLines d).take s ++
            (wrapLinesOf d ++ (splitLines d).drop (b + 1)) := by
        rw [hrun1', hflat]
        exact splitLines_joinLines _ hEne hnnE
      have hPinert : ∀ l ∈ (splitLines d).take s,
          containsC tocEndWord (trimC l) = false ∧
          (trimC l == TOC_PLACEHOLDER) = false := by
        intro l hl
        have hl2 : l ∈ splitLines (cleanOf d) := by
          rw [hCL]
          exact List.mem_append.2 (Or.inl hl)
        exact ⟨hcEnd l hl2, hcPh l hl2⟩
      have hfp2 : findTocPosition (updateToc d defaultOptions) =
          some (s, s + (tocLinesOf d).length + 3) := by
        unfold findTocPosition
        rw [hsplitE]
        obtain ⟨s1, hskip⟩ := findTocAux_inert_append ((splitLines d).take s) 0 none
          (wrapLinesOf d ++ (splitLines d).drop (b + 1)) hPinert
        rw [hskip, show (0 : Nat) + ((splitLines d).take s).length = s by
          rw [htakelen]; omega]
        exact findTocAux_wrapped (tocLinesOf d) _ s s1 ht_all
      have hrem2 := removeExistingToc_of_some (updateToc d defaultOptions) s
        (s + (tocLinesOf d).length + 3) hfp2
      have htake2 : (splitLines (updateToc d defaultOptions)).take s =
          (splitLines d).take s := by
        rw [hsplitE]
        exact List.take_left' htakelen
      have hdrop2 : (splitLines (updateToc d defaultOptions)).drop
          (s + (tocLinesOf d).length + 3 + 1) = (splitLines d).drop (b + 1) := by
        rw [hsplitE]
        rw [show (splitLines d).take s ++
            (wrapLinesOf d ++ (splitLines d).drop (b + 1)) =
            ((splitLines d).take s ++ wrapLinesOf d) ++ (splitLines d).drop (b + 1)
          from (List.append_assoc _ _ _).symm]
        apply List.drop_left'
        simp [wrapLinesOf, htakelen]
        omega
      have hclean2 : (removeExistingToc (updateToc d defaultOptions)).1 =
          (removeExistingToc d).1 := by
        rw [hrem2]
        dsimp only
        rw [htake2, hdrop2]
        rw [show (splitLines d).take s ++ (splitLines d).drop (b + 1) =
            splitLines (cleanOf d) from hCL.symm]
        rw [show (joinLines (splitLines (cleanOf d)) : List Char) = cleanOf d from
          joinLines_splitLines (cleanOf d)]
        rfl
      have hEmpF2 : (extractTocEntries
          (removeExistingToc (updateToc d defaultOptions)).1 defaultOptions).isEmpty =
          false := by
        rw [hclean2]; exact hEmpF1
      have hrun2 := updateToc_shape_some (updateToc d defaultOptions) defaultOptions s
        (s + (tocLinesOf d).length + 3) hfp2 hEmpF2
      rw [hrun2, hclean2, htocd]
      exact hrun1.symm

/-- Witness for C3 at a concrete marker-free two-heading document. -/
theorem updateToc_idempotent_amended_witness :
    entriesOf (("# Hello\n\n## World").data) ≠ [] ∧
    (∀ l ∈ splitLines (cleanOf (("# Hello\n\n## World").data)),
      containsC tocEndWord (trimC l) = false) ∧
    (∀ l ∈ splitLines (cleanOf (("# Hello\n\n## World").data)),
      (trimC l == TOC_PLACEHOLDER) = false) ∧
    (∀ l ∈ tocLinesOf (("# Hello\n\n## World").data),
      isStartMarkerLine (trimC l) = false) ∧
    (∀ l ∈ tocLinesOf (("# Hello\n\n## World").data),
      containsC tocEndWord (trimC l) = false) ∧
    (∀ l ∈ tocLinesOf (("# Hello\n\n## World").data),
      (trimC l == TOC_PLACEHOLDER) = false) ∧
    updateToc (updateToc (("# Hello\n\n## World").data) defaultOptions)
        defaultOptions =
      updateToc (("# Hello\n\n## World").data) defaultOptions :=
  ⟨by decide, by decide, by decide, by decide, by decide, by decide,
    updateToc_idempotent_amended _ (by decide) (by decide) (by decide) (by decide)
      (by decide) (by decide)⟩

end Devto
